import Mathlib

/-!
Verification development for the quantitative momentum strategy repository
(`quantitative_momentum_strategy.py` and its helper scripts).

The Python source is shallowly embedded in Lean:

* dates are triples of naturals ordered lexicographically, matching `datetime`
  comparison; `current + timedelta(days=1)` becomes `nextDay`, and
  `date.replace(day=k)` becomes `replaceDay`, whose `none` result models the
  `ValueError` raised by `datetime` on an invalid calendar day;
* float arithmetic is embedded as exact rational arithmetic (`ℚ`); a value that
  Python would represent as `None` is an `Option` `none`, and where a pandas
  computation can produce `NaN` the embedding uses a nested `Option`;
* the `while current <= end_date` loop of `get_rebalance_dates` is rendered as
  fuel-bounded recursion (`datesFrom`); the Python loop always terminates since
  the current date strictly increases each iteration, and the chosen fuel
  (366 days for each calendar year touched by the range) bounds the number of
  iterations, so the rendering computes the same list;
* DataFrames are lists of records; pandas `rank(pct=True, method='average')`
  is embedded as the average-rank percentile formula, `nlargest`/`sort_values`
  as a stable insertion sort, and `dict` state in the backtest engine as an
  insertion-ordered association list.
-/

/-- Calendar date, the embedding of Python `datetime` values (year, month, day). -/
structure Date where
  y : Nat
  m : Nat
  d : Nat
deriving DecidableEq

/-- Strict lexicographic order on dates, matching Python `datetime` comparison. -/
def dateLt (a b : Date) : Prop :=
  a.y < b.y ∨ (a.y = b.y ∧ a.m < b.m) ∨ (a.y = b.y ∧ a.m = b.m ∧ a.d < b.d)

instance (a b : Date) : Decidable (dateLt a b) := by
  unfold dateLt
  infer_instance

/-- Reflexive lexicographic order on dates (Python `<=` on `datetime`). -/
def dateLe (a b : Date) : Prop :=
  dateLt a b ∨ (a.y = b.y ∧ a.m = b.m ∧ a.d = b.d)

instance (a b : Date) : Decidable (dateLe a b) := by
  unfold dateLe
  infer_instance

/-- Gregorian leap-year rule as implemented by Python's `datetime` module
(divisible by 4, except centuries unless divisible by 400). -/
def isLeapYear (y : Nat) : Bool :=
  y % 4 == 0 && (y % 100 != 0 || y % 400 == 0)

/-- Number of days in a month of the real (Gregorian) calendar, as enforced by
`datetime` when constructing or replacing a date. -/
def daysInMonth (y m : Nat) : Nat :=
  if m = 2 then (if isLeapYear y then 29 else 28)
  else if m = 4 ∨ m = 6 ∨ m = 9 ∨ m = 11 then 30
  else 31

/-- Successor day: the effect of `current + timedelta(days=1)`. -/
def nextDay (x : Date) : Date :=
  if x.d < daysInMonth x.y x.m then ⟨x.y, x.m, x.d + 1⟩
  else if x.m < 12 then ⟨x.y, x.m + 1, 1⟩
  else ⟨x.y + 1, 1, 1⟩

/-- Python `x.replace(day=day)`: keeps year and month, validates the requested
day against the real calendar; `none` models the `ValueError` raised on an
invalid date such as Feb 29 of a non-leap year. -/
def replaceDay (x : Date) (day : Nat) : Option Date :=
  if 1 ≤ day ∧ day ≤ daysInMonth x.y x.m then some ⟨x.y, x.m, day⟩ else none

/-- Day of month that `get_rebalance_dates` selects for a rebalance month:
29 when `year % 4 == 0` else 28 for February, 31 for May and August, and 30
otherwise (November, given the caller's month guard). -/
def monthEndDay (x : Date) : Nat :=
  if x.m = 2 then (if x.y % 4 = 0 then 29 else 28)
  else if x.m = 5 ∨ x.m = 8 then 31
  else 30

/-- Body of the `while` loop of `get_rebalance_dates` for one calendar day:
for a day in February, May, August or November it appends that month's
rebalance date (built with `replace`, which can raise, hence `Option`);
for any other day it appends nothing. -/
def rebalanceContribution (x : Date) : Option (List Date) :=
  if x.m = 2 ∨ x.m = 5 ∨ x.m = 8 ∨ x.m = 11 then
    (replaceDay x (monthEndDay x)).map (fun me => [me])
  else
    some []

/-- Day-by-day iteration of `while current <= end_date`, with explicit fuel.
The Python loop always terminates because the current date strictly increases;
`dateFuel` below over-approximates the number of iterations, so the rendering
produces the same day sequence as the loop. -/
def datesFrom : Nat → Date → Date → List Date
  | 0, _, _ => []
  | fuel + 1, c, e => if dateLe c e then c :: datesFrom fuel (nextDay c) e else []

/-- Upper bound on loop iterations: 366 days for every calendar year touched. -/
def dateFuel (s e : Date) : Nat := (e.y + 1 - s.y) * 366

/-- Sequences the per-day contributions of the loop, propagating the
uncaught `ValueError` (`none`) that aborts the whole call. -/
def collectContributions : List Date → Option (List Date)
  | [] => some []
  | x :: xs =>
    match rebalanceContribution x, collectContributions xs with
    | some l, some rest => some (l ++ rest)
    | _, _ => none

/-- `QuantitativeMomentumStrategy.get_rebalance_dates`: walks every calendar
day from `start_date` to `end_date` and, for each day falling in February,
May, August or November, appends that month's end date to the result.
`none` models the call aborting with an uncaught `ValueError`. -/
def get_rebalance_dates (start_date end_date : Date) : Option (List Date) :=
  collectContributions (datesFrom (dateFuel start_date end_date) start_date end_date)

theorem dateLt_trans {a b c : Date} (h1 : dateLt a b) (h2 : dateLt b c) : dateLt a c := by
  unfold dateLt at *
  omega

theorem dateLe_of_lt {a b : Date} (h : dateLt a b) : dateLe a b :=
  Or.inl h

theorem dateLe_refl (a : Date) : dateLe a a :=
  Or.inr ⟨rfl, rfl, rfl⟩

theorem dateLt_of_lt_of_le {a b c : Date} (h1 : dateLt a b) (h2 : dateLe b c) : dateLt a c := by
  unfold dateLe dateLt at *
  omega

theorem dateLe_trans {a b c : Date} (h1 : dateLe a b) (h2 : dateLe b c) : dateLe a c := by
  unfold dateLe dateLt at *
  omega

theorem nextDay_lt (x : Date) : dateLt x (nextDay x) := by
  unfold nextDay
  split_ifs <;> (unfold dateLt; dsimp only) <;> omega

theorem mem_datesFrom_le {fuel : Nat} {c e x : Date}
    (h : x ∈ datesFrom fuel c e) : dateLe c x := by
  induction fuel generalizing c with
  | zero => simp [datesFrom] at h
  | succ n ih =>
    unfold datesFrom at h
    split_ifs at h with hce
    · rcases List.mem_cons.mp h with h | h
      · subst h; exact dateLe_refl x
      · exact dateLe_trans (dateLe_of_lt (nextDay_lt c)) (ih h)
    · simp at h

theorem datesFrom_pairwise (fuel : Nat) (c e : Date) :
    (datesFrom fuel c e).Pairwise dateLt := by
  induction fuel generalizing c with
  | zero => simp [datesFrom]
  | succ n ih =>
    unfold datesFrom
    split_ifs with hce
    · refine List.Pairwise.cons (fun x hx => ?_) (ih (nextDay c))
      exact dateLt_of_lt_of_le (nextDay_lt c) (mem_datesFrom_le hx)
    · exact List.Pairwise.nil

theorem monthEndDay_congr {a b : Date} (hy : a.y = b.y) (hm : a.m = b.m) :
    monthEndDay a = monthEndDay b := by
  unfold monthEndDay
  rw [hy, hm]

theorem rebalanceContribution_shape {a : Date} {la : List Date}
    (h : rebalanceContribution a = some la) :
    la = [] ∨ la = [⟨a.y, a.m, monthEndDay a⟩] := by
  unfold rebalanceContribution replaceDay at h
  split_ifs at h with h1 h2
  · simp at h
    exact Or.inr h.symm
  · simp at h
  · simp at h
    exact Or.inl h

theorem rebalanceContribution_mem {a x : Date} {la : List Date}
    (h : rebalanceContribution a = some la) (hx : x ∈ la) :
    x = ⟨a.y, a.m, monthEndDay a⟩ := by
  rcases rebalanceContribution_shape h with h2 | h2 <;> subst h2 <;> simp at hx
  exact hx

theorem contribution_mono {a b x ya : Date} {la lb : List Date}
    (hab : dateLe a b)
    (ha : rebalanceContribution a = some la) (hb : rebalanceContribution b = some lb)
    (hx : x ∈ la) (hy : ya ∈ lb) : dateLe x ya := by
  have hx2 := rebalanceContribution_mem ha hx
  have hy2 := rebalanceContribution_mem hb hy
  subst hx2
  subst hy2
  have hk : a.y = b.y → a.m = b.m → monthEndDay a = monthEndDay b :=
    fun h1 h2 => monthEndDay_congr h1 h2
  unfold dateLe dateLt at hab ⊢
  dsimp only at *
  omega

theorem collect_pairwise {ds : List Date} {l : List Date}
    (hds : ds.Pairwise dateLe) (h : collectContributions ds = some l) :
    l.Pairwise dateLe ∧
      ∀ x ∈ l, ∃ d ∈ ds, ∃ ld, rebalanceContribution d = some ld ∧ x ∈ ld := by
  induction ds generalizing l with
  | nil =>
    unfold collectContributions at h
    simp at h
    subst h
    simp
  | cons a as ih =>
    unfold collectContributions at h
    rcases hc : rebalanceContribution a with _ | la <;> rw [hc] at h
    · simp at h
    rcases hr : collectContributions as with _ | lrest <;> rw [hr] at h
    · simp at h
    simp at h
    subst h
    obtain ⟨hpair, htrace⟩ := ih (List.Pairwise.sublist (List.sublist_cons_self a as) hds) hr
    have hhead : ∀ x ∈ as, dateLe a x := fun x hx => List.rel_of_pairwise_cons hds hx
    constructor
    · rw [List.pairwise_append]
      refine ⟨?_, hpair, ?_⟩
      · rcases rebalanceContribution_shape hc with h2 | h2 <;> subst h2 <;> simp
      · intro x hx yb hyb
        obtain ⟨d, hd, ld, hld, hyld⟩ := htrace yb hyb
        exact contribution_mono (hhead d hd) hc hld hx hyld
    · intro x hx
      rcases List.mem_append.mp hx with h2 | h2
      · exact ⟨a, List.mem_cons_self a as, la, hc, h2⟩
      · obtain ⟨d, hd, ld, hld, hxld⟩ := htrace x h2
        exact ⟨d, List.mem_cons_of_mem a hd, ld, hld, hxld⟩

/-- C2 amended: whenever `get_rebalance_dates` returns without raising, the
produced sequence is non-decreasing (it is not in general strictly
increasing: the month-end date is appended once for every calendar day of a
rebalance month inside the range, so it repeats). -/
theorem C2_rebalance_dates_nondecreasing (s e : Date) (l : List Date)
    (h : get_rebalance_dates s e = some l) : l.Pairwise dateLe := by
  unfold get_rebalance_dates at h
  exact (collect_pairwise
    ((datesFrom_pairwise (dateFuel s e) s e).imp fun hab => dateLe_of_lt hab) h).1

/-- C2 witness: a concrete range on which the amended statement is exercised:
the two February days of the range each contribute Feb 28, and the resulting
duplicated sequence is indeed non-decreasing. -/
theorem C2_rebalance_dates_nondecreasing_witness :
    List.Pairwise dateLe [(⟨2023, 2, 28⟩ : Date), ⟨2023, 2, 28⟩] :=
  C2_rebalance_dates_nondecreasing ⟨2023, 2, 1⟩ ⟨2023, 2, 2⟩
    [⟨2023, 2, 28⟩, ⟨2023, 2, 28⟩] (by decide)

/-- C2 counterexample: for start = 2023-02-01 and end = 2023-02-02 (start ≤ end)
the code returns the month-end twice — the sequence is not strictly increasing
and contains two dates in the same quarter, refuting the claim as stated. -/
theorem C2_counterexample :
    get_rebalance_dates ⟨2023, 2, 1⟩ ⟨2023, 2, 2⟩ =
      some [⟨2023, 2, 28⟩, ⟨2023, 2, 28⟩] ∧
    ¬ List.Pairwise dateLt [(⟨2023, 2, 28⟩ : Date), ⟨2023, 2, 28⟩] := by
  constructor
  · decide
  · decide

/-- C4: the code decides February by `year % 4 == 0` alone, so for a year such
as 2100 — divisible by 4 but not a Gregorian leap year — it calls
`replace(day=29)` on a 28-day February and the whole call dies with an
uncaught `ValueError` (`none`), instead of producing Feb 28 as the spec's
standard leap rule requires.  Ordinary years behave as the spec says
(2023 → Feb 28, 2024 → Feb 29). -/
theorem C4_february_century_crash :
    get_rebalance_dates ⟨2100, 2, 1⟩ ⟨2100, 2, 1⟩ = none ∧
    isLeapYear 2100 = false ∧ 2100 % 4 = 0 ∧
    get_rebalance_dates ⟨2023, 2, 1⟩ ⟨2023, 2, 1⟩ = some [⟨2023, 2, 28⟩] ∧
    get_rebalance_dates ⟨2024, 2, 1⟩ ⟨2024, 2, 1⟩ = some [⟨2024, 2, 29⟩] := by
  refine ⟨?_, ?_, ?_, ?_, ?_⟩ <;> decide

/-- Close price of one price bar: `some q` is a numeric close, `none` a
non-numeric value whose arithmetic raises an exception in Python (caught by
the scorers' bare `except`). -/
abbrev Close := Option ℚ

/-- One step of pandas `pct_change`: the simple return of `cur` over `prev`. -/
def dailyReturnStep (prev cur : ℚ) : Option ℚ :=
  some ((cur - prev) / prev)

/-- Pandas `Series.pct_change()` on a numeric close series: the first entry is
`NaN` (embedded as `none`), each later entry the simple return over the
previous close. -/
def pctChange : List ℚ → List (Option ℚ)
  | [] => []
  | c :: t => none :: List.zipWith dailyReturnStep (c :: t) t

/-- Python positional slice `xs[a:b]` for already-clamped non-negative bounds. -/
def pySlice {α : Type} (xs : List α) (a b : Nat) : List α :=
  (xs.drop a).take (b - a)

/-- Pandas elementwise `> 0` on a return entry; `NaN` compares false. -/
def isPosReturn (r : Option ℚ) : Bool :=
  match r with
  | some q => decide (0 < q)
  | none => false

/-- Pandas elementwise `< 0` on a return entry; `NaN` compares false. -/
def isNegReturn (r : Option ℚ) : Bool :=
  match r with
  | some q => decide (q < 0)
  | none => false

/-- `QuantitativeMomentumStrategy.calculate_generic_momentum`: `none` when the
series has fewer than 252 bars or any bar is non-numeric (the raised exception
is swallowed by the bare `except` and `None` is returned); otherwise the
compounded product of `1 + r` over `returns[-252:-21]`, minus 1.  The inner
`Option` records that `np.prod` yields `NaN` (not `None`) when the slice still
contains the leading `NaN` of `pct_change` (exactly the 252-bar case). -/
def calculate_generic_momentum (stock_data : List Close) : Option (Option ℚ) :=
  if stock_data.length < 252 then none
  else if stock_data.any (fun c => c.isNone) then none
  else
    let closes := stock_data.filterMap id
    let returns := pctChange closes
    let window := pySlice returns (returns.length - 252) (returns.length - 21)
    if window.any (fun r => r.isNone) then some none
    else some (some (((window.filterMap id).map (fun r => 1 + r)).prod - 1))

/-- `QuantitativeMomentumStrategy.calculate_fip_score`: `none` when the series
has fewer than 252 bars (`fip_lookback_days`) or any bar is non-numeric;
otherwise the fraction of positive days minus the fraction of negative days
over `returns[-252:]` (zero-return days and the possible leading `NaN` count
toward neither). -/
def calculate_fip_score (stock_data : List Close) : Option ℚ :=
  if stock_data.length < 252 then none
  else if stock_data.any (fun c => c.isNone) then none
  else
    let returns := (pctChange (stock_data.filterMap id)).drop
      ((pctChange (stock_data.filterMap id)).length - 252)
    let pct_positive : ℚ := ((returns.countP isPosReturn : ℚ)) / (returns.length : ℚ)
    let pct_negative : ℚ := ((returns.countP isNegReturn : ℚ)) / (returns.length : ℚ)
    some (pct_positive - pct_negative)

/-- C9: a series shorter than 252 bars, or one containing a non-numeric bar
(whose arithmetic raises and is caught), makes both scorers return the
insufficient-data result `None`. -/
theorem C9_short_or_faulty_series_returns_none (stock_data : List Close)
    (h : stock_data.length < 252 ∨ stock_data.any (fun c => c.isNone) = true) :
    calculate_generic_momentum stock_data = none ∧ calculate_fip_score stock_data = none := by
  constructor
  · unfold calculate_generic_momentum
    split_ifs with h1 h2
    · rfl
    · rfl
    · rcases h with h | h
      · exact absurd h h1
      · exact absurd h h2
  · unfold calculate_fip_score
    split_ifs with h1 h2
    · rfl
    · rfl
    · rcases h with h | h
      · exact absurd h h1
      · exact absurd h h2

/-- C9 witness: a 252-bar series whose bars are all non-numeric is long enough
to pass the length guard, yet both scorers still return `None`. -/
theorem C9_short_or_faulty_series_returns_none_witness :
    calculate_generic_momentum (List.replicate 252 (none : Close)) = none ∧
    calculate_fip_score (List.replicate 252 (none : Close)) = none :=
  C9_short_or_faulty_series_returns_none (List.replicate 252 (none : Close))
    (Or.inr (List.any_eq_true.mpr
      ⟨none, List.mem_replicate.mpr ⟨by norm_num, rfl⟩, rfl⟩))

theorem countP_replicate_eq {α : Type} (p : α → Bool) (n : Nat) (a : α) :
    (List.replicate n a).countP p = if p a then n else 0 := by
  induction n with
  | zero => simp
  | succ k ih =>
    simp only [List.replicate_succ, List.countP_cons, ih]
    split_ifs <;> omega

theorem zipWith_dailyReturn_chain :
    ∀ l : List ℚ, List.Chain' (fun a b => (b - a) / a = 1 / 100) l →
      List.zipWith dailyReturnStep l l.tail =
        List.replicate (l.length - 1) (some (1 / 100))
  | [] => fun _ => by simp
  | [a] => fun _ => by simp
  | a :: b :: t => fun h => by
    obtain ⟨hab, h2⟩ := List.chain'_cons.mp h
    have ih := zipWith_dailyReturn_chain (b :: t) h2
    simp only [List.tail_cons, List.length_cons, Nat.add_sub_cancel] at ih ⊢
    rw [List.zipWith_cons_cons, ih, List.replicate_succ]
    unfold dailyReturnStep
    rw [hab]

theorem pctChange_chain {c : ℚ} {t : List ℚ}
    (h : List.Chain' (fun a b => (b - a) / a = 1 / 100) (c :: t)) :
    pctChange (c :: t) = none :: List.replicate t.length (some (1 / 100)) := by
  have hz := zipWith_dailyReturn_chain (c :: t) h
  simp only [List.tail_cons, List.length_cons, Nat.add_sub_cancel] at hz
  rw [show pctChange (c :: t) = none :: List.zipWith dailyReturnStep (c :: t) t from rfl, hz]

theorem filterMap_id_map_some {α : Type} (l : List α) :
    (l.map some).filterMap id = l := by
  induction l with
  | nil => rfl
  | cons a t ih => simp [List.filterMap_cons, ih]

theorem any_isNone_replicate_some (n : Nat) (q : ℚ) :
    (List.replicate n (some q)).any (fun r => r.isNone) = false := by
  rw [List.any_eq_false]
  intro x hx
  rw [List.eq_of_mem_replicate hx]
  simp

/-- C5: on a price series of exactly 253 bars whose every daily simple return
is +0.01, the momentum scorer returns `(1.01)^231 - 1` — the compounded
product of `1 + r` over the trailing 252 daily returns with the most recent
21 discarded — and the FIP quality scorer returns `1` (all 252 trailing
returns are positive days).  Exact rational arithmetic stands in for the
float computation, so the equality is exact rather than within tolerance. -/
theorem C5_uniform_return_series (closes : List ℚ)
    (hlen : closes.length = 253)
    (hchain : List.Chain' (fun a b => (b - a) / a = 1 / 100) closes) :
    calculate_generic_momentum (closes.map some) =
      some (some ((101 / 100 : ℚ) ^ 231 - 1)) ∧
    calculate_fip_score (closes.map some) = some 1 := by
  obtain ⟨c, t, rfl⟩ : ∃ c t, closes = c :: t := by
    cases closes with
    | nil => simp at hlen
    | cons c t => exact ⟨c, t, rfl⟩
  have hlen2 : t.length = 252 := by simpa using hlen
  have hpct : pctChange (c :: t) = none :: List.replicate 252 (some (1 / 100)) := by
    rw [pctChange_chain hchain, hlen2]
  have hL : ((c :: t).map some).length = 253 := by simp [hlen2]
  have hA : ¬ ((c :: t).map some).any (fun x => x.isNone) = true := by
    rw [List.any_eq_false.mpr]
    · exact Bool.false_ne_true
    · intro x hx
      obtain ⟨q, _, rfl⟩ := List.mem_map.mp hx
      simp
  have hfm : ((c :: t).map some).filterMap id = c :: t := filterMap_id_map_some (c :: t)
  have hwindow :
      pySlice (pctChange (c :: t)) ((pctChange (c :: t)).length - 252)
        ((pctChange (c :: t)).length - 21) =
        List.replicate 231 (some (1 / 100 : ℚ)) := by
    rw [hpct]
    unfold pySlice
    rw [List.length_cons, List.length_replicate]
    rw [show (252 + 1 - 252 : Nat) = 1 from rfl,
        show (252 + 1 - 21 - 1 : Nat) = 231 from rfl]
    rw [List.drop_one, List.tail_cons, List.take_replicate]
    rw [show (231 ⊓ 252 : Nat) = 231 from by omega]
  constructor
  · unfold calculate_generic_momentum
    rw [if_neg (by rw [hL]; omega)]
    rw [if_neg hA]
    dsimp only
    rw [hfm, hwindow]
    rw [if_neg (by rw [any_isNone_replicate_some]; exact Bool.false_ne_true)]
    rw [show List.replicate 231 (some (1 / 100 : ℚ)) =
          List.map some (List.replicate 231 (1 / 100 : ℚ)) from
        List.map_replicate.symm]
    rw [filterMap_id_map_some, List.map_replicate, List.prod_replicate]
    rw [show (1 + 1 / 100 : ℚ) = 101 / 100 from by norm_num]
  · unfold calculate_fip_score
    rw [if_neg (by rw [hL]; omega)]
    rw [if_neg hA]
    dsimp only
    rw [hfm, hpct]
    have hdrop : (none :: List.replicate 252 (some (1 / 100 : ℚ))).drop
        ((none :: List.replicate 252 (some (1 / 100 : ℚ))).length - 252) =
        List.replicate 252 (some (1 / 100 : ℚ)) := by
      rw [List.length_cons, List.length_replicate]
      rw [show (252 + 1 - 252 : Nat) = 1 from rfl]
      rw [List.drop_one, List.tail_cons]
    rw [hdrop]
    rw [countP_replicate_eq, countP_replicate_eq]
    rw [if_pos (by norm_num [isPosReturn])]
    rw [if_neg (by norm_num [isNegReturn])]
    rw [List.length_replicate, Option.some_inj]
    norm_num

/-- Geometric price path with daily growth factor 1.01, used to witness the
uniform-return scenario on concrete data. -/
def geomCloses : Nat → ℚ → List ℚ
  | 0, _ => []
  | n + 1, a => a :: geomCloses n (a * (101 / 100))

theorem geomCloses_length (n : Nat) (a : ℚ) : (geomCloses n a).length = n := by
  induction n generalizing a with
  | zero => rfl
  | succ k ih => simp [geomCloses, ih]

theorem geomCloses_chain (n : Nat) {a : ℚ} (ha : 0 < a) :
    List.Chain' (fun x b => (b - x) / x = 1 / 100) (geomCloses n a) := by
  induction n generalizing a with
  | zero => simp [geomCloses]
  | succ k ih =>
    cases k with
    | zero => simp [geomCloses]
    | succ m =>
      rw [show geomCloses (m + 1 + 1) a =
            a :: (a * (101 / 100)) :: geomCloses m (a * (101 / 100) * (101 / 100)) from rfl]
      rw [List.chain'_cons]
      constructor
      · have h0 : a ≠ 0 := ne_of_gt ha
        field_simp
        ring
      · have h2 := ih (a := a * (101 / 100)) (by positivity)
        rw [show geomCloses (m + 1) (a * (101 / 100)) =
              (a * (101 / 100)) :: geomCloses m (a * (101 / 100) * (101 / 100)) from rfl] at h2
        exact h2

/-- C5 witness: the concrete 253-bar geometric price path starting at 1 with
daily return +0.01 realises the scenario. -/
theorem C5_uniform_return_series_witness :
    calculate_generic_momentum ((geomCloses 253 1).map some) =
      some (some ((101 / 100 : ℚ) ^ 231 - 1)) ∧
    calculate_fip_score ((geomCloses 253 1).map some) = some 1 :=
  C5_uniform_return_series (geomCloses 253 1) (geomCloses_length 253 1)
    (geomCloses_chain 253 (by norm_num))

/-- One row of the `results` list assembled by `screen_momentum_stocks` for a
stock with sufficient valid data: symbol, 12-month momentum, FIP score, last
price and last volume.  The loop that downloads price data and skips tickers
with short or faulty history is the external market-data collaborator. -/
structure ScoreRow where
  symbol : String
  momentum12m : ℚ
  fipScore : ℚ
  price : ℚ
  volume : ℚ
deriving DecidableEq

/-- A `ScoreRow` together with its `Momentum_Rank` column. -/
structure MomRanked extends ScoreRow where
  momentumRank : ℚ
deriving DecidableEq

/-- A gated row together with its `FIP_Rank` and `Combined_Score` columns. -/
structure Ranked extends MomRanked where
  fipRank : ℚ
  combinedScore : ℚ
deriving DecidableEq

/-- Pandas `Series.rank(ascending=False, pct=True)` with the default average
tie method: the average ordinal position of `v` in a descending sort of
`pool` — strictly greater values come first and ties share the average of
their positions — divided by the pool size. -/
def pctRankDesc (pool : List ℚ) (v : ℚ) : ℚ :=
  (((pool.countP fun x => decide (v < x)) : ℚ) +
    ((pool.countP fun x => decide (v ≤ x)) : ℚ) + 1) / (2 * (pool.length : ℚ))

/-- Pandas `Series.rank(ascending=True, pct=True)` with the average tie
method. -/
def pctRankAsc (pool : List ℚ) (v : ℚ) : ℚ :=
  (((pool.countP fun x => decide (x < v)) : ℚ) +
    ((pool.countP fun x => decide (x ≤ v)) : ℚ) + 1) / (2 * (pool.length : ℚ))

/-- `self.portfolio_size`, set to 40 in the constructor and never changed. -/
def portfolio_size : Nat := 40

/-- `self.momentum_percentile`, the 0.90 momentum gate. -/
def momentum_percentile : ℚ := 90 / 100

/-- The dataframe `df` with its `Momentum_Rank` column: every valid row,
ranked by 12-month momentum descending as a percentile over the whole
valid universe. -/
def momRankedRows (results : List ScoreRow) : List MomRanked :=
  results.map (fun r =>
    ⟨r, pctRankDesc (results.map (fun s => s.momentum12m)) r.momentum12m⟩)

/-- `top_momentum`: the rows whose momentum percentile rank passes the gate. -/
def gatedSubset (results : List ScoreRow) : List MomRanked :=
  (momRankedRows results).filter (fun r => decide (r.momentumRank ≤ momentum_percentile))

/-- `top_momentum` with its `FIP_Rank` (ranked ascending within the gated
subset only) and `Combined_Score` columns. -/
def rankedCandidates (results : List ScoreRow) : List Ranked :=
  (gatedSubset results).map (fun r =>
    let fr := pctRankAsc ((gatedSubset results).map (fun s => s.fipScore)) r.fipScore
    ⟨r, fr, 7 / 10 * (1 - r.momentumRank) + 3 / 10 * (1 - fr)⟩)

/-- Stable descending sort by `Combined_Score`: embeds pandas
`nlargest(n, 'Combined_Score')` (stable descending sort, then truncate) and
the final `sort_values('Combined_Score', ascending=False)`. -/
def sortByCombined (l : List Ranked) : List Ranked :=
  List.insertionSort (fun a b => b.combinedScore ≤ a.combinedScore) l

/-- `QuantitativeMomentumStrategy.screen_momentum_stocks` from the point where
the per-stock `results` list has been assembled: empty result for an empty
universe, rank momentum over the whole valid universe, gate at the 0.90
percentile (empty result if nothing passes), rank FIP within the gated
subset, combine 70/30, keep the `portfolio_size` largest by combined score
and return them sorted descending. -/
def screen_momentum_stocks (results : List ScoreRow) : List Ranked :=
  if results.isEmpty then []
  else if (gatedSubset results).isEmpty then []
  else
    sortByCombined ((sortByCombined (rankedCandidates results)).take portfolio_size)

instance : IsTotal Ranked (fun a b => b.combinedScore ≤ a.combinedScore) :=
  ⟨fun _ _ => le_total _ _⟩

instance : IsTrans Ranked (fun a b => b.combinedScore ≤ a.combinedScore) :=
  ⟨fun _ _ _ h1 h2 => le_trans h2 h1⟩

theorem pctRankDesc_pos_le_one {l : List ℚ} {v : ℚ} (hv : v ∈ l) :
    0 < pctRankDesc l v ∧ pctRankDesc l v ≤ 1 := by
  have hn : 0 < l.length := List.length_pos.mpr (List.ne_nil_of_mem hv)
  have hsplit := List.length_eq_countP_add_countP (fun x => decide (v < x)) l
  have hself : 0 < l.countP (fun x => decide ¬(decide (v < x)) = true) := by
    rw [List.countP_pos]
    exact ⟨v, hv, by simp⟩
  have h2 : l.countP (fun x => decide (v ≤ x)) ≤ l.length :=
    List.countP_le_length _
  have key : l.countP (fun x => decide (v < x)) +
      l.countP (fun x => decide (v ≤ x)) + 1 ≤ 2 * l.length := by omega
  have hlq : (0 : ℚ) < (l.length : ℚ) := by exact_mod_cast hn
  unfold pctRankDesc
  constructor
  · apply div_pos
    · positivity
    · linarith
  · rw [div_le_one (by linarith)]
    push_cast
    exact_mod_cast key

theorem pctRankAsc_pos_le_one {l : List ℚ} {v : ℚ} (hv : v ∈ l) :
    0 < pctRankAsc l v ∧ pctRankAsc l v ≤ 1 := by
  have hn : 0 < l.length := List.length_pos.mpr (List.ne_nil_of_mem hv)
  have hsplit := List.length_eq_countP_add_countP (fun x => decide (x < v)) l
  have hself : 0 < l.countP (fun x => decide ¬(decide (x < v)) = true) := by
    rw [List.countP_pos]
    exact ⟨v, hv, by simp⟩
  have h2 : l.countP (fun x => decide (x ≤ v)) ≤ l.length :=
    List.countP_le_length _
  have key : l.countP (fun x => decide (x < v)) +
      l.countP (fun x => decide (x ≤ v)) + 1 ≤ 2 * l.length := by omega
  have hlq : (0 : ℚ) < (l.length : ℚ) := by exact_mod_cast hn
  unfold pctRankAsc
  constructor
  · apply div_pos
    · positivity
    · linarith
  · rw [div_le_one (by linarith)]
    push_cast
    exact_mod_cast key

/-- C6: for every candidate of the gated subset, the combined score is
`0.70 * (1 - momentum_percentile_rank) + 0.30 * (1 - quality_percentile_rank)`,
it always lies in `[0, 1]`, and it can equal 1 only for a candidate whose
momentum and quality percentile ranks are both 0 (pandas percentile ranks are
in fact always strictly positive, so the bound 1 is never attained). -/
theorem C6_combined_score_bounds (results : List ScoreRow)
    (r : Ranked) (hr : r ∈ rankedCandidates results) :
    r.combinedScore = 7 / 10 * (1 - r.momentumRank) + 3 / 10 * (1 - r.fipRank) ∧
    0 ≤ r.combinedScore ∧ r.combinedScore ≤ 1 ∧
    (r.combinedScore = 1 → r.momentumRank = 0 ∧ r.fipRank = 0) := by
  unfold rankedCandidates at hr
  obtain ⟨m, hm, rfl⟩ := List.mem_map.mp hr
  have hfr := pctRankAsc_pos_le_one
    (l := (gatedSubset results).map (fun s => s.fipScore))
    (List.mem_map_of_mem (fun s => s.fipScore) hm)
  have hm2 : m ∈ momRankedRows results := List.mem_of_mem_filter hm
  unfold momRankedRows at hm2
  obtain ⟨s, hs, rfl⟩ := List.mem_map.mp hm2
  have hmr := pctRankDesc_pos_le_one
    (l := results.map (fun u => u.momentum12m))
    (List.mem_map_of_mem (fun u => u.momentum12m) hs)
  dsimp only at hfr hmr ⊢
  refine ⟨rfl, by linarith [hmr.1, hmr.2, hfr.1, hfr.2], by linarith [hmr.1, hfr.1], ?_⟩
  intro h1
  exfalso
  have hlt : 7 / 10 * (1 - pctRankDesc (results.map (fun u => u.momentum12m)) s.momentum12m) +
      3 / 10 * (1 - pctRankAsc ((gatedSubset results).map (fun u => u.fipScore))
        s.fipScore) < 1 := by
    linarith [hmr.1, hfr.1]
  exact absurd h1 (ne_of_lt hlt)

/-- Concrete two-stock universe used to exercise the ranking pipeline. -/
def twoStockResults : List ScoreRow :=
  [⟨"A", 2, -1/2, 100, 1000⟩, ⟨"B", 1, 1/2, 50, 2000⟩]

/-- The single gated candidate produced by `twoStockResults`: stock A with
momentum rank 1/2, FIP rank 1 and combined score 7/20. -/
def twoStockTopRow : Ranked :=
  ⟨⟨⟨"A", 2, -1/2, 100, 1000⟩, 1/2⟩, 1, 7/20⟩

/-- C6 witness: the gated candidate of the concrete two-stock universe
satisfies the combined-score formula and bounds. -/
theorem C6_combined_score_bounds_witness :
    twoStockTopRow.combinedScore =
      7 / 10 * (1 - twoStockTopRow.momentumRank) +
        3 / 10 * (1 - twoStockTopRow.fipRank) ∧
    0 ≤ twoStockTopRow.combinedScore ∧ twoStockTopRow.combinedScore ≤ 1 ∧
    (twoStockTopRow.combinedScore = 1 →
      twoStockTopRow.momentumRank = 0 ∧ twoStockTopRow.fipRank = 0) :=
  C6_combined_score_bounds twoStockResults twoStockTopRow (by
    norm_num [rankedCandidates, gatedSubset, momRankedRows, pctRankDesc, pctRankAsc,
      momentum_percentile, twoStockTopRow, twoStockResults, List.countP, List.countP.go,
      List.filter])

/-- C7: the portfolio selector returns at most `portfolio_size` candidates,
every returned candidate passes the 0.90 momentum gate, the output is sorted
descending by combined score, and an empty gated subset yields an empty
portfolio. -/
theorem C7_selector_contract (results : List ScoreRow) :
    (screen_momentum_stocks results).length ≤ portfolio_size ∧
    (∀ r ∈ screen_momentum_stocks results, r.momentumRank ≤ momentum_percentile) ∧
    List.Sorted (fun a b => b.combinedScore ≤ a.combinedScore)
      (screen_momentum_stocks results) ∧
    (gatedSubset results = [] → screen_momentum_stocks results = []) := by
  unfold screen_momentum_stocks
  split_ifs with h1 h2
  · exact ⟨by simp, by simp, List.sorted_nil, fun _ => rfl⟩
  · exact ⟨by simp, by simp, List.sorted_nil, fun _ => rfl⟩
  · refine ⟨?_, ?_, ?_, ?_⟩
    · unfold sortByCombined
      rw [List.length_insertionSort]
      exact le_trans (List.length_take_le _ _) (le_refl _)
    · intro r hrm
      unfold sortByCombined at hrm
      rw [(List.perm_insertionSort _ _).mem_iff] at hrm
      have hrm2 : r ∈ List.insertionSort
          (fun a b => b.combinedScore ≤ a.combinedScore) (rankedCandidates results) :=
        List.mem_of_mem_take hrm
      rw [(List.perm_insertionSort _ _).mem_iff] at hrm2
      unfold rankedCandidates at hrm2
      obtain ⟨m, hm, rfl⟩ := List.mem_map.mp hrm2
      have hm2 : m ∈ (momRankedRows results).filter
          (fun r => decide (r.momentumRank ≤ momentum_percentile)) := hm
      rw [List.mem_filter] at hm2
      show m.momentumRank ≤ momentum_percentile
      exact of_decide_eq_true hm2.2
    · unfold sortByCombined
      exact List.sorted_insertionSort _ _
    · intro hg
      exact absurd (by rw [hg]; rfl : (gatedSubset results).isEmpty = true) h2

/-- C7 witness: a one-stock universe, whose sole candidate has percentile rank
1 and so fails the 0.90 gate, makes the selector return the empty portfolio. -/
theorem C7_selector_contract_witness :
    screen_momentum_stocks [⟨"A", 1, 0, 10, 1⟩] = [] :=
  (C7_selector_contract [⟨"A", 1, 0, 10, 1⟩]).2.2.2 (by
    norm_num [gatedSubset, momRankedRows, pctRankDesc, momentum_percentile,
      List.countP, List.countP.go, List.filter])

/-- Civil-calendar day number (Hinnant's days-from-civil algorithm): date
differences match Python `(d2 - d1).days` on valid dates, giving the
`Holding_Days` arithmetic of the engine. -/
def rataDie (x : Date) : Int :=
  let yAdj : Nat := if x.m ≤ 2 then x.y - 1 else x.y
  let era : Nat := yAdj / 400
  let yoe : Nat := yAdj - era * 400
  let mp : Nat := (x.m + 9) % 12
  let doy : Nat := (153 * mp + 2) / 5 + x.d - 1
  let doe : Nat := yoe * 365 + yoe / 4 - yoe / 100 + doy
  (era * 146097 + doe : Int) - 719468

/-- Open-position state kept in the `positions` dict of
`BacktestEngine.run_backtest`. -/
structure Position where
  entry_price : ℚ
  current_price : ℚ
  entry_date : Date
  shares : ℚ
deriving DecidableEq

/-- One record of the `self.trades` list. -/
structure TradeRec where
  symbol : String
  entry_date : Date
  exit_date : Date
  entry_price : ℚ
  exit_price : ℚ
  return_pct : ℚ
  holding_days : Int
deriving DecidableEq

/-- Python `dict` insertion on an insertion-ordered association list:
overwrites the value in place when the key exists, appends otherwise. -/
def dictInsert (k : String) (v : Position) :
    List (String × Position) → List (String × Position)
  | [] => [(k, v)]
  | (k2, v2) :: rest =>
    if k2 = k then (k2, v) :: rest else (k2, v2) :: dictInsert k v rest

/-- Closing one open position at a rebalance date: the trade record that
`run_backtest` appends, with `exit_price` read from the position's stored
`current_price` and the return computed from it. -/
def closeTrade (exitDate : Date) (sym : String) (p : Position) : TradeRec :=
  { symbol := sym
    entry_date := p.entry_date
    exit_date := exitDate
    entry_price := p.entry_price
    exit_price := p.current_price
    return_pct := (p.current_price - p.entry_price) / p.entry_price * 100
    holding_days := rataDie exitDate - rataDie p.entry_date }

/-- One iteration of the rebalance loop of `BacktestEngine.run_backtest`:
skip the date when the screened portfolio is empty; otherwise close every
open position into a trade record and open fresh equal-weight positions for
the first `portfolio_size` portfolio rows, each sized
`initial_capital / len(portfolio)` of capital at the row's price, with
`current_price` initialised to the entry price. -/
def rebalanceStep (screen : Date → List Ranked) (initial_capital : ℚ)
    (st : List TradeRec × List (String × Position)) (d : Date) :
    List TradeRec × List (String × Position) :=
  let portfolio := screen d
  if portfolio.isEmpty then st
  else
    let position_size := initial_capital / (portfolio.length : ℚ)
    let newTrades := st.2.map (fun kv => closeTrade d kv.1 kv.2)
    let newPositions := (portfolio.take portfolio_size).foldl
      (fun ps row => dictInsert row.symbol
        ⟨row.price, row.price, d, position_size / row.price⟩ ps) []
    (st.1 ++ newTrades, newPositions)

/-- `BacktestEngine.run_backtest`: folds the rebalance step over the rebalance
dates starting from empty trades and positions, returning the final trade log
together with the positions still open after the last date.  The screening
function stands for `self.strategy.screen_momentum_stocks` applied to the
data available at each date. -/
def run_backtest (screen : Date → List Ranked) (dates : List Date)
    (initial_capital : ℚ) : List TradeRec × List (String × Position) :=
  dates.foldl (rebalanceStep screen initial_capital) ([], [])

/-- Every stored position keeps `current_price` equal to its entry price and
is sized by equal weight over the screened portfolio of its entry date. -/
def PositionsInv (screen : Date → List Ranked) (cap : ℚ)
    (ps : List (String × Position)) : Prop :=
  ∀ kv ∈ ps, kv.2.current_price = kv.2.entry_price ∧
    kv.2.shares = cap / ((screen kv.2.entry_date).length : ℚ) / kv.2.entry_price

/-- Every recorded trade exits at its entry price with a zero return. -/
def TradesInv (tr : List TradeRec) : Prop :=
  ∀ t ∈ tr, t.exit_price = t.entry_price ∧ t.return_pct = 0

theorem dictInsert_forall {P : Position → Prop} {k : String} {v : Position}
    {ps : List (String × Position)}
    (hps : ∀ kv ∈ ps, P kv.2) (hv : P v) :
    ∀ kv ∈ dictInsert k v ps, P kv.2 := by
  induction ps with
  | nil =>
    intro kv hkv
    simp [dictInsert] at hkv
    rw [hkv]
    exact hv
  | cons hd tl ih =>
    intro kv hkv
    unfold dictInsert at hkv
    split_ifs at hkv with hk
    · rcases List.mem_cons.mp hkv with h | h
      · rw [h]
        exact hv
      · exact hps kv (List.mem_cons_of_mem hd h)
    · rcases List.mem_cons.mp hkv with h | h
      · rw [h]
        exact hps hd (List.mem_cons_self hd tl)
      · exact ih (fun u hu => hps u (List.mem_cons_of_mem hd hu)) kv h

theorem foldl_dictInsert_forall {P : Position → Prop} (f : Ranked → Position)
    (hf : ∀ r, P (f r)) :
    ∀ (rows : List Ranked) (ps : List (String × Position)),
      (∀ kv ∈ ps, P kv.2) →
      ∀ kv ∈ rows.foldl (fun acc row => dictInsert row.symbol (f row) acc) ps, P kv.2 := by
  intro rows
  induction rows with
  | nil => exact fun ps hps => hps
  | cons r rest ih =>
    intro ps hps
    exact ih (dictInsert r.symbol (f r) ps) (dictInsert_forall hps (hf r))

theorem rebalanceStep_inv (screen : Date → List Ranked) (cap : ℚ)
    (st : List TradeRec × List (String × Position)) (d : Date)
    (h : TradesInv st.1 ∧ PositionsInv screen cap st.2) :
    TradesInv (rebalanceStep screen cap st d).1 ∧
      PositionsInv screen cap (rebalanceStep screen cap st d).2 := by
  unfold rebalanceStep
  dsimp only
  split_ifs with hemp
  · exact h
  · constructor
    · intro t ht
      rcases List.mem_append.mp ht with h1 | h1
      · exact h.1 t h1
      · obtain ⟨kv, hkv, rfl⟩ := List.mem_map.mp h1
        have hp := (h.2 kv hkv).1
        unfold closeTrade
        refine ⟨hp, ?_⟩
        dsimp only
        rw [hp, sub_self, zero_div, zero_mul]
    · intro kv hkv
      refine foldl_dictInsert_forall
        (P := fun p => p.current_price = p.entry_price ∧
          p.shares = cap / (((screen p.entry_date).length : ℚ)) / p.entry_price)
        (fun row => ⟨row.price, row.price, d,
          cap / (((screen d).length : ℚ)) / row.price⟩)
        (fun r => ⟨rfl, rfl⟩) ((screen d).take portfolio_size) [] (by simp) kv hkv

theorem run_backtest_inv (screen : Date → List Ranked) (cap : ℚ)
    (dates : List Date) :
    TradesInv (run_backtest screen dates cap).1 ∧
      PositionsInv screen cap (run_backtest screen dates cap).2 := by
  unfold run_backtest
  suffices hstep : ∀ st : List TradeRec × List (String × Position),
      TradesInv st.1 ∧ PositionsInv screen cap st.2 →
      TradesInv (dates.foldl (rebalanceStep screen cap) st).1 ∧
        PositionsInv screen cap (dates.foldl (rebalanceStep screen cap) st).2 by
    refine hstep ([], []) ⟨?_, ?_⟩
    · intro t ht
      simp at ht
    · intro kv hkv
      simp at hkv
  induction dates with
  | nil => exact fun st hst => hst
  | cons d ds ih =>
    intro st hst
    exact ih (rebalanceStep screen cap st d) (rebalanceStep_inv screen cap st d hst)

/-- C1: in every run of the backtest engine, every recorded trade has
`exit_price = entry_price` and `return_pct = 0`, because a position's stored
`current_price` is set to the entry price when it is opened and never updated
before the position is closed at the next rebalance. -/
theorem C1_every_trade_has_zero_return (screen : Date → List Ranked)
    (dates : List Date) (initial_capital : ℚ) (t : TradeRec)
    (ht : t ∈ (run_backtest screen dates initial_capital).1) :
    t.exit_price = t.entry_price ∧ t.return_pct = 0 :=
  (run_backtest_inv screen initial_capital dates).1 t ht

/-- A black-box screening result used by concrete engine runs. -/
def rankedSingleA : Ranked := ⟨⟨⟨"A", 1, 0, 100, 1⟩, 1/2⟩, 1/2, 1/2⟩

/-- The single trade produced by running the engine twice on a one-stock
screen: stock A, opened at the first rebalance and closed at the second at
an unchanged stored price. -/
def tradeSingleA : TradeRec :=
  ⟨"A", ⟨2023, 2, 28⟩, ⟨2023, 5, 31⟩, 100, 100, 0,
    rataDie ⟨2023, 5, 31⟩ - rataDie ⟨2023, 2, 28⟩⟩

/-- C1 witness: the concrete two-date, one-stock run records exactly this
zero-return trade. -/
theorem C1_every_trade_has_zero_return_witness :
    tradeSingleA.exit_price = tradeSingleA.entry_price ∧
      tradeSingleA.return_pct = 0 :=
  C1_every_trade_has_zero_return (fun _ => [rankedSingleA])
    [⟨2023, 2, 28⟩, ⟨2023, 5, 31⟩] 1000000 tradeSingleA (by
      norm_num [run_backtest, rebalanceStep, closeTrade, dictInsert,
        portfolio_size, rankedSingleA, tradeSingleA, List.foldl, List.take])

/-- C3 amended: every position opened by the engine is sized equal-weight
over the number of candidates actually screened at its entry date —
`shares = (initial_capital / len(portfolio)) / entry_price` — not over the
configured `portfolio_size`. -/
theorem C3_shares_equal_weight_over_screened (screen : Date → List Ranked)
    (dates : List Date) (initial_capital : ℚ) (kv : String × Position)
    (hkv : kv ∈ (run_backtest screen dates initial_capital).2) :
    kv.2.shares =
      initial_capital / (((screen kv.2.entry_date).length : ℚ)) / kv.2.entry_price :=
  ((run_backtest_inv screen initial_capital dates).2 kv hkv).2

/-- C3 witness: in the concrete one-candidate run the opened position holds
`(1000000 / 1) / 100 = 10000` shares. -/
theorem C3_shares_equal_weight_over_screened_witness :
    ((("A" : String), (⟨100, 100, ⟨2023, 2, 28⟩, 10000⟩ : Position)) : String × Position).2.shares =
      1000000 / ((((fun _ => [rankedSingleA]) ((⟨100, 100, ⟨2023, 2, 28⟩, 10000⟩ : Position).entry_date) : List Ranked).length : ℚ)) /
        ((⟨100, 100, ⟨2023, 2, 28⟩, 10000⟩ : Position) : Position).entry_price :=
  C3_shares_equal_weight_over_screened (fun _ => [rankedSingleA]) [⟨2023, 2, 28⟩]
    1000000 ("A", ⟨100, 100, ⟨2023, 2, 28⟩, 10000⟩) (by
      norm_num [run_backtest, rebalanceStep, dictInsert, portfolio_size,
        rankedSingleA, List.foldl, List.take])

/-- C3 counterexample: a rebalance whose screened portfolio has one candidate
(stock A of the two-stock universe; stock B fails the momentum gate) opens a
position of `(1000000 / 1) / 100 = 10000` shares, not the
`(1000000 / portfolio_size) / 100 = 250` shares the claim computes: the code
divides the capital by `len(portfolio)`, not by `portfolio_size`. -/
theorem C3_counterexample :
    (run_backtest (fun _ => screen_momentum_stocks twoStockResults)
        [⟨2023, 2, 28⟩] 1000000).2 =
      [("A", ⟨100, 100, ⟨2023, 2, 28⟩, 10000⟩)] ∧
    (10000 : ℚ) ≠ 1000000 / ((portfolio_size : ℚ)) / 100 := by
  constructor
  · norm_num [run_backtest, rebalanceStep, screen_momentum_stocks, sortByCombined,
      rankedCandidates, gatedSubset, momRankedRows, pctRankDesc, pctRankAsc,
      momentum_percentile, twoStockResults, portfolio_size, dictInsert,
      List.insertionSort, List.orderedInsert, List.countP, List.countP.go,
      List.filter, List.foldl, List.take]
  · norm_num [portfolio_size]

/-- Three-stock universe screened at the first rebalance date: A and B pass
the momentum gate (Z ranks at percentile 1 and is gated out). -/
def threeStockResultsD1 : List ScoreRow :=
  [⟨"A", 3, -1, 100, 10⟩, ⟨"B", 2, 0, 50, 10⟩, ⟨"Z", 1, 0, 10, 10⟩]

/-- Three-stock universe screened at the second rebalance date: A and C pass
the momentum gate. -/
def threeStockResultsD2 : List ScoreRow :=
  [⟨"A", 3, -1, 110, 10⟩, ⟨"C", 2, 0, 60, 10⟩, ⟨"Z", 1, 0, 10, 10⟩]

/-- The screening outcome of the two-date scenario: {A, B} selected at the
first date, {A, C} at the second. -/
def screenTwoDates : Date → List Ranked := fun d =>
  if d = ⟨2023, 2, 28⟩ then screen_momentum_stocks threeStockResultsD1
  else screen_momentum_stocks threeStockResultsD2

/-- C8: in the two-date scenario where A is selected at both dates, B only at
the first and C only at the second, the run records exactly two trades — A
and B, both opened at the first date and closed at the second — while the A
and C positions opened at the final date stay open and produce no trade
record. -/
theorem C8_tail_positions_not_closed :
    ((run_backtest screenTwoDates [⟨2023, 2, 28⟩, ⟨2023, 5, 31⟩] 1000000).1.map
        (fun t => (t.symbol, t.entry_date, t.exit_date))) =
      [("A", ⟨2023, 2, 28⟩, ⟨2023, 5, 31⟩), ("B", ⟨2023, 2, 28⟩, ⟨2023, 5, 31⟩)] ∧
    ((run_backtest screenTwoDates [⟨2023, 2, 28⟩, ⟨2023, 5, 31⟩] 1000000).2.map
        (fun kv => (kv.1, kv.2.entry_date))) =
      [("A", ⟨2023, 5, 31⟩), ("C", ⟨2023, 5, 31⟩)] := by
  constructor <;>
    · norm_num [run_backtest, rebalanceStep, closeTrade, screenTwoDates,
        screen_momentum_stocks, sortByCombined, rankedCandidates, gatedSubset,
        momRankedRows, pctRankDesc, pctRankAsc, momentum_percentile,
        threeStockResultsD1, threeStockResultsD2, portfolio_size, dictInsert,
        List.insertionSort, List.orderedInsert, List.countP, List.countP.go,
        List.filter, List.foldl, List.take]
      simp

/-- Summary row of `_generate_backtest_summary`.  The sample variance of the
return column is stored instead of pandas `std` (its square root): `none`
embeds the `NaN` that `std` yields for a single trade.  The real-valued
`std`/Sharpe figures are the derived quantities below. -/
structure BacktestSummary where
  total_trades : Nat
  winning_trades : Nat
  win_rate_pct : ℚ
  avg_return_pct : ℚ
  max_drawdown_pct : ℚ
  avg_holding_days : ℚ
  var_returns : Option ℚ
deriving DecidableEq

/-- Sample variance (pandas default `ddof=1`) of a list of rationals; `none`
embeds the `NaN` pandas `std` produces for fewer than two observations. -/
def sampleVariance (l : List ℚ) : Option ℚ :=
  if l.length ≤ 1 then none
  else
    some (((l.map (fun x => (x - l.sum / (l.length : ℚ)) ^ 2)).sum) /
      ((l.length : ℚ) - 1))

/-- `BacktestEngine._generate_backtest_summary`: an empty trade list returns
the explicit no-data result (`pd.DataFrame()`, embedded as `none`) before any
statistic is computed or any division happens; otherwise one summary row of
trade count, win count and rate, mean and minimum return, mean holding days
and sample variance of returns. -/
def generate_backtest_summary (trades : List TradeRec) : Option BacktestSummary :=
  match trades with
  | [] => none
  | t :: ts =>
    let returns := (t :: ts).map (fun u => u.return_pct)
    let n : ℚ := (returns.length : ℚ)
    let wins := returns.countP (fun r => decide (0 < r))
    some
      { total_trades := (t :: ts).length
        winning_trades := wins
        win_rate_pct := (wins : ℚ) / n * 100
        avg_return_pct := returns.sum / n
        max_drawdown_pct := returns.foldl min t.return_pct
        avg_holding_days := ((((t :: ts).map (fun u => u.holding_days)).sum : Int) : ℚ) / n
        var_returns := sampleVariance returns }

/-- Pandas `trades_df['Return_Pct'].std()` as a real number. -/
noncomputable def summaryStdDev (s : BacktestSummary) : Option ℝ :=
  s.var_returns.map (fun v => Real.sqrt (v : ℝ))

/-- The Sharpe line of the summary:
`avg_return * (252 / avg_holding_days) / (std + 1e-6) * sqrt 252`. -/
noncomputable def summarySharpe (s : BacktestSummary) : Option ℝ :=
  (summaryStdDev s).map (fun sd =>
    ((s.avg_return_pct : ℝ) * (252 / (s.avg_holding_days : ℝ))) / (sd + 1 / 1000000) *
      Real.sqrt 252)

/-- C10: a simulation run that ends with an empty trade list makes the
summary step return the explicit no-data result; no statistic is computed
and no division is reached. -/
theorem C10_empty_trades_no_data (screen : Date → List Ranked)
    (dates : List Date) (initial_capital : ℚ)
    (h : (run_backtest screen dates initial_capital).1 = []) :
    generate_backtest_summary (run_backtest screen dates initial_capital).1 = none := by
  rw [h]
  rfl

/-- C10 witness: a run whose screen never selects anything records no trades,
and its summary is the no-data result. -/
theorem C10_empty_trades_no_data_witness :
    generate_backtest_summary
      (run_backtest (fun _ => []) [⟨2023, 2, 28⟩] 1000000).1 = none :=
  C10_empty_trades_no_data (fun _ => []) [⟨2023, 2, 28⟩] 1000000 (by
    norm_num [run_backtest, rebalanceStep, List.foldl])
